import Mathlib

/-!
Verification of the key-selection core of `jina-http-proxy`.

The development shallowly embeds the Go repository:
* `key/repository.go` — `InsertKey`, `UseBestKey`, `GetKeyStats` over the
  Postgres table `keys (key PRIMARY KEY, balance integer NOT NULL,
  used_at timestamptz NULL, created_at timestamptz NOT NULL DEFAULT now())`;
* `proxy/handler.go` — `CreateProxyHandler`, which acquires a key and sets the
  `Authorization` header before forwarding.

The table is a `List Key`; timestamps are `Nat`; the set of rows currently
row-locked by other in-flight transactions is a `List String` of key ids
(`SELECT ... FOR UPDATE SKIP LOCKED` skips exactly those rows).  Fallible
steps of the transaction (begin / select / update / commit) are modelled by
Boolean fault-injection flags; an error on any step yields the pre-state,
which is what the deferred `tx.Rollback()` guarantees.
-/

namespace JinaProxy

/-- A row of the `keys` table (migration `20250321082834_create_keys_table.sql`):
`key` varchar primary key, `balance` integer not null, `used_at` nullable
timestamptz, `created_at` timestamptz not null. -/
structure Key where
  key : String
  balance : Int
  usedAt : Option Nat
  createdAt : Nat
  deriving DecidableEq, Repr

/-- Strict comparison of the `used_at` column under Postgres `ORDER BY used_at ASC`:
ascending order puts `NULL` after every non-`NULL` value (default `NULLS LAST`). -/
def usedAtLt : Option Nat → Option Nat → Bool
  | some x, some y => x < y
  | some _, none => true
  | none, _ => false

/-- Strict row comparison for
`ORDER BY created_at DESC, used_at ASC, balance DESC` in `UseBestKey`
(`key/repository.go`): `a` sorts strictly before `b`. -/
def keyOrder (a b : Key) : Bool :=
  if a.createdAt ≠ b.createdAt then decide (b.createdAt < a.createdAt)
  else if a.usedAt ≠ b.usedAt then usedAtLt a.usedAt b.usedAt
  else decide (b.balance < a.balance)

/-- The row `LIMIT 1` returns: a minimal row under `keyOrder`.  On rows that
compare equal in all three sort columns Postgres returns an arbitrary one;
here the earliest such row of the list is taken. -/
def selectBest : List Key → Option Key
  | [] => none
  | k :: ks =>
    match selectBest ks with
    | none => some k
    | some m => if keyOrder m k then some m else some k

/-- The rows visible to `FOR UPDATE SKIP LOCKED`: every row whose id is not
row-locked by another in-flight acquisition. -/
def candidates (locked : List String) (ks : List Key) : List Key :=
  ks.filter (fun k => !(decide (k.key ∈ locked)))

/-- `UPDATE keys SET used_at = now() WHERE key = $1`. -/
def setUsedAt (kid : String) (now : Nat) (ks : List Key) : List Key :=
  ks.map (fun k => if k.key = kid then { k with usedAt := some now } else k)

/-- `UseBestKey` (`key/repository.go`) as one transaction, with fault-injection
flags for the four fallible steps (`BeginTx`, the `QueryRow ... Scan` transport,
`ExecContext` of the update, `Commit`).  Every non-`ok` outcome returns the
pre-state: the deferred `tx.Rollback()` discards the uncommitted update.
An empty candidate set surfaces as the `sql.ErrNoRows` scan error. -/
def useBestKeyTx (failBegin failSelect failUpdate failCommit : Bool)
    (locked : List String) (now : Nat) (ks : List Key) :
    Except String String × List Key :=
  if failBegin then (Except.error "begin transaction", ks)
  else if failSelect then (Except.error "select transport", ks)
  else
    match selectBest (candidates locked ks) with
    | none => (Except.error "sql: no rows in result set", ks)
    | some best =>
      if failUpdate then (Except.error "update used_at", ks)
      else if failCommit then (Except.error "commit", ks)
      else (Except.ok best.key, setUsedAt best.key now ks)

/-- `UseBestKey` in the fault-free run: `some id` of the acquired key, or
`none` when no unlocked row exists. -/
def useBestKey (locked : List String) (now : Nat) (ks : List Key) :
    Option String × List Key :=
  match useBestKeyTx false false false false locked now ks with
  | (Except.ok k, ks2) => (some k, ks2)
  | (Except.error _, ks2) => (none, ks2)

/-- `InsertKey` (`key/repository.go`):
`INSERT INTO keys (key, balance) VALUES ($1, $2) ON CONFLICT DO NOTHING`
with the balance hard-coded to `1000000`; `created_at` takes the schema
default `now()` and `used_at` is `NULL`. -/
def insertKey (id : String) (now : Nat) (ks : List Key) : List Key :=
  if ks.any (fun k => k.key == id) then ks
  else ks ++ [{ key := id, balance := 1000000, usedAt := none, createdAt := now }]

/-- The `KeyStats` DTO scanned from `SELECT COUNT(*), SUM(balance)`. -/
structure KeyStats where
  count : Nat
  balance : Int
  deriving DecidableEq, Repr

/-- SQL `SUM(balance)`: `NULL` over zero rows, otherwise the sum. -/
def sumBalance : List Key → Option Int
  | [] => none
  | k :: ks => some (k.balance + (ks.map Key.balance).sum)

/-- `GetKeyStats` (`key/repository.go`):
`SELECT COUNT(*), SUM(balance) FROM keys` scanned into integer fields.
On an empty table `SUM(balance)` is SQL `NULL`, and Go `database/sql`
fails to scan `NULL` into a plain integer destination, so the call
returns an error instead of zero stats. -/
def getKeyStats (ks : List Key) : Except String KeyStats :=
  match sumBalance ks with
  | none => Except.error "converting NULL to int is unsupported"
  | some s => Except.ok { count := ks.length, balance := s }

/-- An HTTP request, reduced to its header list (name, value). -/
structure Request where
  headers : List (String × String)
  deriving DecidableEq, Repr

/-- Go `http.Header.Set`: replaces every existing value of the header. -/
def setHeader (r : Request) (name value : String) : Request :=
  { headers := (name, value) :: r.headers.filter (fun h => !(h.1 == name)) }

/-- Go `http.Header.Get`: first value of the header, if any. -/
def findHeader (r : Request) (name : String) : Option String :=
  (r.headers.find? (fun h => h.1 == name)).map (fun h => h.2)

/-- The per-request interception of `CreateProxyHandler` (`proxy/handler.go`):
one `UseBestKey` call; on success (`err == nil && key != nil`) set
`Authorization: Bearer <key>`, on any failure forward the request unmodified. -/
def createProxyHandler (failBegin failSelect failUpdate failCommit : Bool)
    (locked : List String) (now : Nat) (ks : List Key) (r : Request) :
    Request × List Key :=
  match useBestKeyTx failBegin failSelect failUpdate failCommit locked now ks with
  | (Except.ok k, ks2) => (setHeader r "Authorization" ("Bearer " ++ k), ks2)
  | (Except.error _, ks2) => (r, ks2)

/-! ### Order lemmas for the `ORDER BY` comparison -/

theorem usedAtLt_irrefl (a : Option Nat) : usedAtLt a a = false := by
  cases a <;> simp [usedAtLt]

theorem usedAtLt_asymm {a b : Option Nat} (h : usedAtLt a b = true) :
    usedAtLt b a = false := by
  cases a <;> cases b <;> simp_all [usedAtLt] <;> omega

theorem usedAtLt_trans {a b c : Option Nat} (h1 : usedAtLt a b = true)
    (h2 : usedAtLt b c = true) : usedAtLt a c = true := by
  cases a <;> cases b <;> cases c <;> simp_all [usedAtLt] <;> omega

theorem usedAtLt_conn {a b : Option Nat} (h : usedAtLt a b = false) :
    a = b ∨ usedAtLt b a = true := by
  cases a <;> cases b <;> simp_all [usedAtLt] <;> omega

theorem usedAtLt_negTrans {a b c : Option Nat} (h1 : usedAtLt a b = false)
    (h2 : usedAtLt b c = false) : usedAtLt a c = false := by
  cases a <;> cases b <;> cases c <;> simp_all [usedAtLt] <;> omega

theorem keyOrder_eq_true_iff (a b : Key) :
    keyOrder a b = true ↔
      b.createdAt < a.createdAt ∨
        (a.createdAt = b.createdAt ∧
          (usedAtLt a.usedAt b.usedAt = true ∨
            (a.usedAt = b.usedAt ∧ b.balance < a.balance))) := by
  unfold keyOrder
  by_cases h1 : a.createdAt = b.createdAt
  · by_cases h2 : a.usedAt = b.usedAt
    · simp [h1, h2, usedAtLt_irrefl]
    · simp [h1, h2]
  · simp only [h1, ne_eq, not_false_eq_true, if_true, false_and, or_false,
      decide_eq_true_eq]

theorem keyOrder_irrefl (a : Key) : keyOrder a a = false := by
  simp [keyOrder]

theorem keyOrder_asymm {a b : Key} (h : keyOrder a b = true) :
    keyOrder b a = false := by
  rw [← Bool.not_eq_true]
  intro h2
  rw [keyOrder_eq_true_iff] at h h2
  rcases h with h | ⟨hc, h⟩ <;> rcases h2 with h2 | ⟨hc2, h2⟩
  · omega
  · omega
  · omega
  · rcases h with h | ⟨hu, h⟩ <;> rcases h2 with h2 | ⟨hu2, h2⟩
    · have := usedAtLt_asymm h
      simp_all
    · rw [hu2] at h
      simp [usedAtLt_irrefl] at h
    · rw [hu] at h2
      simp [usedAtLt_irrefl] at h2
    · omega

theorem keyOrder_conn {a b : Key} (h1 : keyOrder a b = false)
    (h2 : keyOrder b a = false) :
    a.createdAt = b.createdAt ∧ a.usedAt = b.usedAt ∧ a.balance = b.balance := by
  rw [← Bool.not_eq_true, keyOrder_eq_true_iff] at h1 h2
  push_neg at h1 h2
  obtain ⟨h1cr, h1rest⟩ := h1
  obtain ⟨h2cr, h2rest⟩ := h2
  have hcr : a.createdAt = b.createdAt := by omega
  obtain ⟨h1u, h1bal⟩ := h1rest hcr
  obtain ⟨h2u, h2bal⟩ := h2rest hcr.symm
  simp only [ne_eq, Bool.not_eq_true] at h1u h2u
  have hu : a.usedAt = b.usedAt := by
    rcases usedAtLt_conn h1u with h | h
    · exact h
    · simp_all
  refine ⟨hcr, hu, ?_⟩
  have := h1bal hu
  have := h2bal hu.symm
  omega

theorem keyOrder_negTrans {a b c : Key} (h1 : keyOrder a b = false)
    (h2 : keyOrder b c = false) : keyOrder a c = false := by
  rw [← Bool.not_eq_true] at h1 h2 ⊢
  rw [keyOrder_eq_true_iff] at h1 h2 ⊢
  push_neg at h1 h2
  intro hac
  obtain ⟨h1cr, h1rest⟩ := h1
  obtain ⟨h2cr, h2rest⟩ := h2
  rcases hac with hac | ⟨haccr, hacrest⟩
  · -- c.createdAt < a.createdAt, yet b is between in createdAt order
    omega
  · -- a.createdAt = c.createdAt
    have hbcr1 : a.createdAt ≤ b.createdAt := by omega
    have hbcr2 : b.createdAt ≤ a.createdAt := by omega
    have hbcr : a.createdAt = b.createdAt := by omega
    obtain ⟨h1u, h1bal⟩ := h1rest hbcr
    obtain ⟨h2u, h2bal⟩ := h2rest (by omega)
    simp only [ne_eq, Bool.not_eq_true] at h1u h2u
    rcases hacrest with hacu | ⟨hacu, hacbal⟩
    · -- usedAtLt a.usedAt c.usedAt, contradicting the two non-strict steps
      have := usedAtLt_negTrans h1u h2u
      simp_all
    · -- a.usedAt = c.usedAt and c.balance < a.balance
      rcases usedAtLt_conn h1u with hab | hab
      · have hb1 := h1bal hab
        have hbc : b.usedAt = c.usedAt := by rw [← hab, hacu]
        have hb2 := h2bal hbc
        omega
      · have : usedAtLt b.usedAt c.usedAt = true := by rw [← hacu]; exact hab
        simp_all

/-! ### Selection lemmas -/

theorem selectBest_eq_none {ks : List Key} : selectBest ks = none ↔ ks = [] := by
  cases ks with
  | nil => simp [selectBest]
  | cons k ks =>
    cases h : selectBest ks with
    | none => simp [selectBest, h]
    | some m =>
      simp only [selectBest, h]
      split <;> simp

theorem selectBest_mem {ks : List Key} {k : Key} (h : selectBest ks = some k) :
    k ∈ ks := by
  induction ks with
  | nil => simp [selectBest] at h
  | cons x xs ih =>
    cases hx : selectBest xs with
    | none =>
      simp only [selectBest, hx] at h
      obtain rfl : x = k := Option.some.inj h
      exact List.mem_cons_self _ _
    | some m =>
      simp only [selectBest, hx] at h
      split at h
      · obtain rfl : m = k := Option.some.inj h
        exact List.mem_cons_of_mem _ (ih hx)
      · obtain rfl : x = k := Option.some.inj h
        exact List.mem_cons_self _ _

theorem selectBest_min {ks : List Key} :
    ∀ {k : Key}, selectBest ks = some k → ∀ c ∈ ks, keyOrder c k = false := by
  induction ks with
  | nil => intro k h; simp [selectBest] at h
  | cons x xs ih =>
    intro k h
    cases hx : selectBest xs with
    | none =>
      simp only [selectBest, hx] at h
      obtain rfl : x = k := Option.some.inj h
      have hnil : xs = [] := selectBest_eq_none.mp hx
      subst hnil
      intro c hc
      rcases List.mem_cons.mp hc with rfl | hc
      · exact keyOrder_irrefl c
      · simp at hc
    | some m =>
      simp only [selectBest, hx] at h
      by_cases hmk : keyOrder m x = true
      · rw [if_pos hmk] at h
        obtain rfl : m = k := Option.some.inj h
        intro c hc
        rcases List.mem_cons.mp hc with rfl | hc
        · exact keyOrder_asymm hmk
        · exact ih hx c hc
      · rw [if_neg hmk] at h
        obtain rfl : x = k := Option.some.inj h
        have hmx : keyOrder m x = false := by
          simpa using hmk
        intro c hc
        rcases List.mem_cons.mp hc with rfl | hc
        · exact keyOrder_irrefl c
        · exact keyOrder_negTrans (ih hx c hc) hmx

theorem useBestKey_eq (locked : List String) (now : Nat) (ks : List Key) :
    useBestKey locked now ks =
      match selectBest (candidates locked ks) with
      | none => (none, ks)
      | some best => (some best.key, setUsedAt best.key now ks) := by
  unfold useBestKey useBestKeyTx
  cases h : selectBest (candidates locked ks) <;> simp [h]

theorem mem_of_mem_candidates {locked : List String} {ks : List Key} {c : Key}
    (h : c ∈ candidates locked ks) : c ∈ ks :=
  (List.mem_filter.mp h).1

/-! ### Claim theorems -/

/-- C1: on a non-empty set of unlocked keys, `UseBestKey` returns the key that
is minimal under the order `created_at DESC, used_at ASC (nulls last),
balance DESC`: it weakly precedes every unlocked key and strictly precedes
every unlocked key that differs in any of the three sort columns (hence is the
unique first key whenever the sort columns separate the keys); in particular it
carries the maximal `created_at`, and it is never-used only when every unlocked
key of the same `created_at` is never-used. -/
theorem useBestKey_selects_rank_minimum (locked : List String) (now : Nat)
    (ks : List Key) (h : candidates locked ks ≠ []) :
    ∃ b : Key,
      (useBestKey locked now ks).1 = some b.key ∧
      b ∈ candidates locked ks ∧
      (∀ c ∈ candidates locked ks, keyOrder c b = false) ∧
      (∀ c ∈ candidates locked ks,
        (c.createdAt ≠ b.createdAt ∨ c.usedAt ≠ b.usedAt ∨ c.balance ≠ b.balance) →
          keyOrder b c = true) ∧
      (∀ c ∈ candidates locked ks, c.createdAt ≤ b.createdAt) ∧
      (b.usedAt = none → ∀ c ∈ candidates locked ks,
        c.createdAt = b.createdAt → c.usedAt = none) := by
  cases hsel : selectBest (candidates locked ks) with
  | none => exact absurd (selectBest_eq_none.mp hsel) h
  | some b =>
    refine ⟨b, ?_, selectBest_mem hsel, selectBest_min hsel, ?_, ?_, ?_⟩
    · rw [useBestKey_eq, hsel]
    · intro c hc hne
      by_contra hbc
      rw [Bool.not_eq_true] at hbc
      have hcb := selectBest_min hsel c hc
      obtain ⟨h1, h2, h3⟩ := keyOrder_conn hcb hbc
      rcases hne with hne | hne | hne
      · exact hne h1
      · exact hne h2
      · exact hne h3
    · intro c hc
      have hcb := selectBest_min hsel c hc
      rw [← Bool.not_eq_true, keyOrder_eq_true_iff] at hcb
      push_neg at hcb
      obtain ⟨h1, _⟩ := hcb
      omega
    · intro hbu c hc hcr
      have hcb := selectBest_min hsel c hc
      cases hcu : c.usedAt with
      | none => rfl
      | some t =>
        have hcbt : keyOrder c b = true := by
          rw [keyOrder_eq_true_iff]
          right
          refine ⟨hcr, Or.inl ?_⟩
          rw [hcu, hbu]
          rfl
        simp_all

/-- C1 witness: two unlocked keys with distinct `created_at`. -/
theorem useBestKey_selects_rank_minimum_witness :
    candidates [] [⟨"k1", 1000000, none, 5⟩, ⟨"k2", 1000000, none, 9⟩] ≠ [] ∧
      (∃ b : Key,
        (useBestKey [] 7
          [⟨"k1", 1000000, none, 5⟩, ⟨"k2", 1000000, none, 9⟩]).1 = some b.key) :=
  ⟨by decide,
    Exists.imp (fun _ hb => hb.1)
      (useBestKey_selects_rank_minimum [] 7
        [⟨"k1", 1000000, none, 5⟩, ⟨"k2", 1000000, none, 9⟩] (by decide))⟩

/-- C2: with exactly two keys of distinct ids, two overlapping acquisitions —
the second running while the first still holds its row lock — both succeed and
return the two distinct ids; the second caller skips the locked row instead of
blocking. -/
theorem useBestKey_two_concurrent_acquisitions (a b : Key) (t1 t2 : Nat)
    (hne : a.key ≠ b.key) :
    ∃ k1 k2 : String,
      (useBestKey [] t1 [a, b]).1 = some k1 ∧
      (useBestKey [k1] t2 [a, b]).1 = some k2 ∧
      k1 ≠ k2 ∧ (k1 = a.key ∨ k1 = b.key) ∧ (k2 = a.key ∨ k2 = b.key) := by
  have hcand : candidates [] [a, b] = [a, b] := by simp [candidates]
  have hsel : selectBest [a, b] = if keyOrder b a = true then some b else some a := rfl
  by_cases hba : keyOrder b a = true
  · refine ⟨b.key, a.key, ?_, ?_, fun hc => hne hc.symm, Or.inr rfl, Or.inl rfl⟩
    · rw [useBestKey_eq, hcand, hsel, if_pos hba]
    · have hc2 : candidates [b.key] [a, b] = [a] := by
        simp [candidates, hne]
      rw [useBestKey_eq, hc2]
      rfl
  · refine ⟨a.key, b.key, ?_, ?_, hne, Or.inl rfl, Or.inr rfl⟩
    · rw [useBestKey_eq, hcand, hsel, if_neg hba]
    · have hc2 : candidates [a.key] [a, b] = [b] := by
        simp [candidates, hne.symm]
      rw [useBestKey_eq, hc2]
      rfl

/-- C2 witness: two concrete keys. -/
theorem useBestKey_two_concurrent_acquisitions_witness :
    (⟨"alpha", 1000000, none, 3⟩ : Key).key ≠ (⟨"beta", 1000000, none, 4⟩ : Key).key ∧
      (∃ k1 k2 : String,
        (useBestKey [] 10 [⟨"alpha", 1000000, none, 3⟩, ⟨"beta", 1000000, none, 4⟩]).1
            = some k1 ∧
        (useBestKey [k1] 11 [⟨"alpha", 1000000, none, 3⟩, ⟨"beta", 1000000, none, 4⟩]).1
            = some k2 ∧
        k1 ≠ k2 ∧
        (k1 = (⟨"alpha", 1000000, none, 3⟩ : Key).key ∨
          k1 = (⟨"beta", 1000000, none, 4⟩ : Key).key) ∧
        (k2 = (⟨"alpha", 1000000, none, 3⟩ : Key).key ∨
          k2 = (⟨"beta", 1000000, none, 4⟩ : Key).key)) :=
  ⟨by decide,
    useBestKey_two_concurrent_acquisitions
      ⟨"alpha", 1000000, none, 3⟩ ⟨"beta", 1000000, none, 4⟩ 10 11 (by decide)⟩

/-- C3: a successful `UseBestKey` returns the id of the selected (best unlocked)
key, and in the post-state every row with that id has `used_at = some now`,
hence non-null and at least any instant `t0` preceding the call. -/
theorem useBestKey_success_sets_usedAt (locked : List String) (now t0 : Nat)
    (ks ks2 : List Key) (kid : String)
    (h : useBestKey locked now ks = (some kid, ks2)) (h0 : t0 ≤ now) :
    (∃ b : Key, selectBest (candidates locked ks) = some b ∧ kid = b.key) ∧
    (∃ k2 ∈ ks2, k2.key = kid) ∧
    (∀ k2 ∈ ks2, k2.key = kid → ∃ u, k2.usedAt = some u ∧ t0 ≤ u) := by
  rw [useBestKey_eq] at h
  cases hsel : selectBest (candidates locked ks) with
  | none => rw [hsel] at h; simp at h
  | some b =>
    rw [hsel] at h
    simp only [Prod.mk.injEq, Option.some.injEq] at h
    obtain ⟨hkid, hks2⟩ := h
    subst hks2
    have hb : b ∈ ks := mem_of_mem_candidates (selectBest_mem hsel)
    refine ⟨⟨b, rfl, hkid.symm⟩, ?_, ?_⟩
    · have hmem : (if b.key = b.key then { b with usedAt := some now } else b)
          ∈ setUsedAt b.key now ks := List.mem_map_of_mem _ hb
      rw [if_pos rfl] at hmem
      exact ⟨{ b with usedAt := some now }, hmem, hkid⟩
    · intro k2 hk2 hk2id
      obtain ⟨x, hx, hfx⟩ := List.mem_map.mp hk2
      by_cases hxb : x.key = kid
      · rw [← hkid] at hxb
        rw [if_pos hxb] at hfx
        refine ⟨now, ?_, h0⟩
        rw [← hfx]
      · rw [← hkid] at hxb
        rw [if_neg hxb] at hfx
        rw [← hfx] at hk2id
        rw [hkid] at hxb
        exact absurd hk2id hxb

/-- C3 witness: one concrete key acquired at time 7, checked against t0 = 6. -/
theorem useBestKey_success_sets_usedAt_witness :
    useBestKey [] 7 [⟨"k1", 1000000, none, 5⟩]
        = (some "k1", [⟨"k1", 1000000, some 7, 5⟩]) ∧ (6 ≤ 7) ∧
      ((∃ b : Key, selectBest (candidates [] [⟨"k1", 1000000, none, 5⟩]) = some b ∧
          "k1" = b.key) ∧
        (∃ k2 ∈ [(⟨"k1", 1000000, some 7, 5⟩ : Key)], k2.key = "k1") ∧
        (∀ k2 ∈ [(⟨"k1", 1000000, some 7, 5⟩ : Key)], k2.key = "k1" →
          ∃ u, k2.usedAt = some u ∧ 6 ≤ u)) :=
  ⟨by decide, by decide,
    useBestKey_success_sets_usedAt [] 7 6 [⟨"k1", 1000000, none, 5⟩]
      [⟨"k1", 1000000, some 7, 5⟩] "k1" (by decide) (by decide)⟩

theorem find?_filter_ne (hs : List (String × String)) (n n2 : String)
    (h : n2 ≠ n) :
    (hs.filter (fun p => !(p.1 == n))).find? (fun p => p.1 == n2)
      = hs.find? (fun p => p.1 == n2) := by
  induction hs with
  | nil => rfl
  | cons hd tl ih =>
    by_cases hd1 : hd.1 = n
    · have h1 : (!(hd.1 == n)) = false := by simp [hd1]
      have h2 : (hd.1 == n2) = false := by
        rw [hd1]
        exact beq_eq_false_iff_ne.mpr (Ne.symm h)
      rw [List.filter_cons, h1, if_neg (by simp), ih,
        List.find?_cons_of_neg _ (by simp [h2])]
    · have h1 : (!(hd.1 == n)) = true := by simp [hd1]
      rw [List.filter_cons, h1, if_pos rfl]
      by_cases hd2 : hd.1 = n2
      · rw [List.find?_cons_of_pos _ (by simp [hd2]),
          List.find?_cons_of_pos _ (by simp [hd2])]
      · rw [List.find?_cons_of_neg _ (by simp [hd2]),
          List.find?_cons_of_neg _ (by simp [hd2]), ih]

theorem findHeader_setHeader_same (r : Request) (n v : String) :
    findHeader (setHeader r n v) n = some v := by
  unfold findHeader setHeader
  rw [List.find?_cons_of_pos _ (by simp)]
  rfl

theorem findHeader_setHeader_other (r : Request) (n v n2 : String)
    (h : n2 ≠ n) : findHeader (setHeader r n v) n2 = findHeader r n2 := by
  unfold findHeader setHeader
  rw [List.find?_cons_of_neg _ (by simp [Ne.symm h]), find?_filter_ne _ _ _ h]

/-- C4: every non-successful run of the `UseBestKey` transaction — an injected
failure of begin/select/update/commit, or no selectable row — returns an error
to the caller and leaves the key table exactly as before (the rollback
discards any partial `used_at` update); in particular with no unlocked rows
the call always errors with unchanged state. -/
theorem useBestKeyTx_failure_rolls_back (fB fS fU fC : Bool)
    (locked : List String) (now : Nat) (ks : List Key) :
    (∀ e ks2, useBestKeyTx fB fS fU fC locked now ks = (Except.error e, ks2) →
      ks2 = ks) ∧
    (candidates locked ks = [] →
      ∃ e, useBestKeyTx fB fS fU fC locked now ks = (Except.error e, ks)) := by
  constructor
  · intro e ks2 h
    unfold useBestKeyTx at h
    cases hsel : selectBest (candidates locked ks) <;> rw [hsel] at h <;>
      cases fB <;> cases fS <;> cases fU <;> cases fC <;> simp_all
  · intro hc
    have hsel : selectBest (candidates locked ks) = none := by
      rw [selectBest_eq_none, hc]
    unfold useBestKeyTx
    rw [hsel]
    cases fB <;> cases fS <;> cases fU <;> cases fC <;> exact ⟨_, rfl⟩

/-- C4 witness: a failed begin on the empty table. -/
theorem useBestKeyTx_failure_rolls_back_witness :
    ([] : List Key) = [] ∧
    (∃ e, useBestKeyTx true false false false [] 0 []
        = (Except.error e, ([] : List Key))) :=
  ⟨(useBestKeyTx_failure_rolls_back true false false false [] 0 []).1
      "begin transaction" [] (by rfl),
    (useBestKeyTx_failure_rolls_back true false false false [] 0 []).2 (by rfl)⟩

/-- C5: the interceptor performs the single acquisition (its post-store is the
acquisition post-store); on success it sets `Authorization` to `Bearer` plus
the key — overwriting any previous value, all other headers untouched — and on
any failure (no key or store error) it forwards the request unmodified. -/
theorem createProxyHandler_bearer_or_fail_open (fB fS fU fC : Bool)
    (locked : List String) (now : Nat) (ks : List Key) (r : Request) :
    ((createProxyHandler fB fS fU fC locked now ks r).2
        = (useBestKeyTx fB fS fU fC locked now ks).2) ∧
    (∀ k, (useBestKeyTx fB fS fU fC locked now ks).1 = Except.ok k →
      findHeader (createProxyHandler fB fS fU fC locked now ks r).1 "Authorization"
          = some ("Bearer " ++ k) ∧
      (∀ n, n ≠ "Authorization" →
        findHeader (createProxyHandler fB fS fU fC locked now ks r).1 n
            = findHeader r n)) ∧
    (∀ e, (useBestKeyTx fB fS fU fC locked now ks).1 = Except.error e →
      (createProxyHandler fB fS fU fC locked now ks r).1 = r) := by
  cases husb : useBestKeyTx fB fS fU fC locked now ks with
  | mk res ks2 =>
    cases res with
    | ok k =>
      have hout : (createProxyHandler fB fS fU fC locked now ks r).1
          = setHeader r "Authorization" ("Bearer " ++ k) := by
        simp [createProxyHandler, husb]
      refine ⟨?_, ?_, ?_⟩
      · simp [createProxyHandler, husb]
      · intro k2 hk2
        simp at hk2
        subst hk2
        constructor
        · rw [hout, findHeader_setHeader_same]
        · intro n hn
          rw [hout, findHeader_setHeader_other _ _ _ _ hn]
      · intro e he
        simp at he
    | error e0 =>
      refine ⟨?_, ?_, ?_⟩
      · simp [createProxyHandler, husb]
      · intro k hk
        simp at hk
      · intro e he
        simp [createProxyHandler, husb]

/-- C5 witness: a successful acquisition overwrites the header; a failed begin
forwards the request unmodified. -/
theorem createProxyHandler_bearer_or_fail_open_witness :
    findHeader (createProxyHandler false false false false [] 7
        [⟨"k1", 1000000, none, 5⟩]
        ⟨[("Authorization", "Bearer stale"), ("Accept", "x")]⟩).1 "Authorization"
      = some ("Bearer " ++ "k1") ∧
    (createProxyHandler true false false false [] 7 [⟨"k1", 1000000, none, 5⟩]
        ⟨[("Accept", "x")]⟩).1 = ⟨[("Accept", "x")]⟩ :=
  ⟨((createProxyHandler_bearer_or_fail_open false false false false [] 7
      [⟨"k1", 1000000, none, 5⟩]
      ⟨[("Authorization", "Bearer stale"), ("Accept", "x")]⟩).2.1 "k1" (by rfl)).1,
    (createProxyHandler_bearer_or_fail_open true false false false [] 7
      [⟨"k1", 1000000, none, 5⟩] ⟨[("Accept", "x")]⟩).2.2 "begin transaction"
      (by rfl)⟩

/-- C6 (as the code behaves): on the empty table `SUM(balance)` scans as SQL
`NULL` into an integer field, so `GetKeyStats` errors instead of returning
`(0, 0)`; on a non-empty table it returns the count and the balance sum, e.g.
`(3, 6000)` for balances 1000/2000/3000. -/
theorem getKeyStats_empty_errors :
    getKeyStats [] = Except.error "converting NULL to int is unsupported" ∧
    getKeyStats [⟨"key-1", 1000, none, 0⟩, ⟨"key-2", 2000, none, 0⟩,
        ⟨"key-3", 3000, none, 0⟩] = Except.ok ⟨3, 6000⟩ :=
  ⟨rfl, rfl⟩

theorem insertKey_of_exists {id : String} {t : Nat} {ks : List Key}
    (h : ∃ k ∈ ks, k.key = id) : insertKey id t ks = ks := by
  have hc : ks.any (fun k => k.key == id) = true := by
    rw [List.any_eq_true]
    obtain ⟨k, hk, hkey⟩ := h
    exact ⟨k, hk, by simp [hkey]⟩
  unfold insertKey
  rw [if_pos hc]

theorem exists_key_insertKey (id : String) (t : Nat) (ks : List Key) :
    ∃ k ∈ insertKey id t ks, k.key = id := by
  unfold insertKey
  cases hc : ks.any (fun k => k.key == id) with
  | true =>
    rw [if_pos rfl]
    obtain ⟨k, hk, hkey⟩ := List.any_eq_true.mp hc
    exact ⟨k, hk, by simpa using hkey⟩
  | false =>
    rw [if_neg (by simp)]
    exact ⟨_, List.mem_append_right _ (List.mem_singleton.mpr rfl), rfl⟩

/-- C7: `InsertKey` is idempotent: when the id already exists the call leaves
the store completely unchanged; a second insert of the same id is a no-op; and
starting from a store without the id, inserting it twice leaves exactly one
record with that id, the record written by the first insert. -/
theorem insertKey_idempotent (id : String) (t1 t2 : Nat) (ks : List Key) :
    ((∃ k ∈ ks, k.key = id) → insertKey id t1 ks = ks) ∧
    insertKey id t2 (insertKey id t1 ks) = insertKey id t1 ks ∧
    ((∀ k ∈ ks, k.key ≠ id) →
      (insertKey id t2 (insertKey id t1 ks)).filter (fun k => k.key == id)
        = [{ key := id, balance := 1000000, usedAt := none, createdAt := t1 }]) := by
  refine ⟨fun h => insertKey_of_exists h,
    insertKey_of_exists (exists_key_insertKey id t1 ks), fun hno => ?_⟩
  rw [insertKey_of_exists (exists_key_insertKey id t1 ks)]
  have hc : ks.any (fun k => k.key == id) = false := by
    cases hc : ks.any (fun k => k.key == id) with
    | false => rfl
    | true =>
      obtain ⟨k, hk, hkey⟩ := List.any_eq_true.mp hc
      exact absurd (by simpa using hkey) (hno k hk)
  unfold insertKey
  rw [if_neg (by simp [hc]), List.filter_append]
  have hnil : ks.filter (fun k => k.key == id) = [] := by
    rw [List.filter_eq_nil_iff]
    intro k hk
    simp [hno k hk]
  rw [hnil]
  simp

/-- C7 witness: re-insert of an existing id is a no-op; double insert from the
empty store keeps exactly the first record. -/
theorem insertKey_idempotent_witness :
    insertKey "a" 1 [⟨"a", 1000000, none, 0⟩] = [⟨"a", 1000000, none, 0⟩] ∧
    (insertKey "b" 2 (insertKey "b" 1 [])).filter (fun k => k.key == "b")
      = [{ key := "b", balance := 1000000, usedAt := none, createdAt := 1 }] :=
  ⟨(insertKey_idempotent "a" 1 9 [⟨"a", 1000000, none, 0⟩]).1
      ⟨⟨"a", 1000000, none, 0⟩, by simp, rfl⟩,
    (insertKey_idempotent "b" 1 2 []).2.2 (by simp)⟩

/-- C8: no operation moves a key's `used_at` backward: insertion leaves every
existing row untouched, and an acquisition at time `now` (with `now` at or
after every stored `used_at`, as with a monotone database clock) leaves each
row's `used_at` unchanged or advances it to `now`. -/
theorem usedAt_monotone (id : String) (tIns : Nat) (locked : List String)
    (now : Nat) (ks : List Key)
    (hclock : ∀ k ∈ ks, ∀ t, k.usedAt = some t → t ≤ now) :
    (∀ i : Nat, ∀ k : Key, ks[i]? = some k → (insertKey id tIns ks)[i]? = some k) ∧
    (∀ i : Nat, ∀ k : Key, ks[i]? = some k →
      ∃ k2 : Key, ((useBestKey locked now ks).2)[i]? = some k2 ∧
        (k2.usedAt = k.usedAt ∨
          (k2.usedAt = some now ∧ ∀ t, k.usedAt = some t → t ≤ now))) := by
  constructor
  · intro i k hik
    unfold insertKey
    split
    · exact hik
    · have hlt : i < ks.length := by
        rcases List.getElem?_eq_some.mp hik with ⟨hl, _⟩
        exact hl
      rw [List.getElem?_append, if_pos hlt]
      exact hik
  · intro i k hik
    have hkmem : k ∈ ks := by
      rcases List.getElem?_eq_some.mp hik with ⟨hl, hval⟩
      exact hval ▸ List.getElem_mem hl
    rw [useBestKey_eq]
    cases hsel : selectBest (candidates locked ks) with
    | none => exact ⟨k, hik, Or.inl rfl⟩
    | some b =>
      refine ⟨if k.key = b.key then { k with usedAt := some now } else k, ?_, ?_⟩
      · unfold setUsedAt
        rw [List.getElem?_map, hik]
        rfl
      · by_cases hkb : k.key = b.key
        · rw [if_pos hkb]
          exact Or.inr ⟨rfl, hclock k hkmem⟩
        · rw [if_neg hkb]
          exact Or.inl rfl

/-- C8 witness: store with one used key, inserted against and acquired at a
later clock. -/
theorem usedAt_monotone_witness :
    (∀ k ∈ [(⟨"k1", 1000000, some 3, 5⟩ : Key)], ∀ t, k.usedAt = some t → t ≤ 7) ∧
    (insertKey "k2" 9 [⟨"k1", 1000000, some 3, 5⟩])[0]?
      = some ⟨"k1", 1000000, some 3, 5⟩ :=
  ⟨by intro k hk t ht; simp_all; omega,
    (usedAt_monotone "k2" 9 [] 7 [⟨"k1", 1000000, some 3, 5⟩]
      (by intro k hk t ht; simp_all; omega)).1 0 ⟨"k1", 1000000, some 3, 5⟩ rfl⟩

/-- C9: every record created by `InsertKey` has balance exactly 1000000 — the
caller supplies only the id; any run either leaves the store unchanged or
appends the record `(id, 1000000, NULL, now)`, and from a store without the id
that record is actually present afterwards. -/
theorem insertKey_balance_fixed (id : String) (t : Nat) (ks : List Key) :
    (∀ k ∈ insertKey id t ks, k ∈ ks ∨
      (k.key = id ∧ k.balance = 1000000 ∧ k.usedAt = none ∧ k.createdAt = t)) ∧
    ((∀ k ∈ ks, k.key ≠ id) →
      { key := id, balance := 1000000, usedAt := none, createdAt := t }
        ∈ insertKey id t ks) := by
  constructor
  · intro k hk
    unfold insertKey at hk
    split at hk
    · exact Or.inl hk
    · rcases List.mem_append.mp hk with hk | hk
      · exact Or.inl hk
      · rw [List.mem_singleton] at hk
        subst hk
        exact Or.inr ⟨rfl, rfl, rfl, rfl⟩
  · intro hno
    have hc : ks.any (fun k => k.key == id) = false := by
      cases hc : ks.any (fun k => k.key == id) with
      | false => rfl
      | true =>
        obtain ⟨k, hk, hkey⟩ := List.any_eq_true.mp hc
        exact absurd (by simpa using hkey) (hno k hk)
    unfold insertKey
    rw [if_neg (by simp [hc])]
    exact List.mem_append_right _ (List.mem_singleton.mpr rfl)

/-- C9 witness: inserting a fresh id next to an unrelated key. -/
theorem insertKey_balance_fixed_witness :
    (∀ k ∈ [(⟨"a", 777, some 1, 0⟩ : Key)], k.key ≠ "b") ∧
    ({ key := "b", balance := 1000000, usedAt := none, createdAt := 4 } : Key)
      ∈ insertKey "b" 4 [⟨"a", 777, some 1, 0⟩] :=
  ⟨by decide, (insertKey_balance_fixed "b" 4 [⟨"a", 777, some 1, 0⟩]).2 (by decide)⟩

/-- C10: a successful acquisition touches nothing but the `used_at` of the
row(s) whose primary key equals the returned id: lengths and positions are
preserved, every row keeps its id, balance and `created_at`, rows with a
different id are entirely unchanged, and the selected row's `used_at` becomes
`some now`. -/
theorem useBestKey_frame (locked : List String) (now : Nat) (ks ks2 : List Key)
    (kid : String) (h : useBestKey locked now ks = (some kid, ks2)) :
    ks2.length = ks.length ∧
    ∀ i : Nat, ∀ k : Key, ks[i]? = some k →
      ∃ k2 : Key, ks2[i]? = some k2 ∧
        k2.key = k.key ∧ k2.balance = k.balance ∧ k2.createdAt = k.createdAt ∧
        (k.key ≠ kid → k2 = k) ∧ (k.key = kid → k2.usedAt = some now) := by
  rw [useBestKey_eq] at h
  cases hsel : selectBest (candidates locked ks) with
  | none => rw [hsel] at h; simp at h
  | some b =>
    rw [hsel] at h
    simp only [Prod.mk.injEq, Option.some.injEq] at h
    obtain ⟨hkid, hks2⟩ := h
    subst hks2
    constructor
    · simp [setUsedAt]
    · intro i k hik
      refine ⟨if k.key = b.key then { k with usedAt := some now } else k, ?_, ?_⟩
      · unfold setUsedAt
        rw [List.getElem?_map, hik]
        rfl
      · by_cases hkb : k.key = b.key
        · rw [if_pos hkb]
          exact ⟨rfl, rfl, rfl, fun hne => absurd (hkb.trans hkid) hne,
            fun _ => rfl⟩
        · rw [if_neg hkb]
          exact ⟨rfl, rfl, rfl, fun _ => rfl,
            fun heq => absurd (heq.trans hkid.symm) hkb⟩

/-- C10 witness: single key acquired at time 7. -/
theorem useBestKey_frame_witness :
    useBestKey [] 7 [⟨"k1", 1000000, none, 5⟩]
        = (some "k1", [⟨"k1", 1000000, some 7, 5⟩]) ∧
    ([(⟨"k1", 1000000, some 7, 5⟩ : Key)]).length
      = ([(⟨"k1", 1000000, none, 5⟩ : Key)]).length :=
  ⟨by rfl,
    (useBestKey_frame [] 7 [⟨"k1", 1000000, none, 5⟩]
      [⟨"k1", 1000000, some 7, 5⟩] "k1" (by rfl)).1⟩

end JinaProxy
